import Mathlib

/-!
Verification of the mission-control WhatsApp bridge against its specification.

The repository contains two implementations of the same bridge:
  * `src/whatsapp-bridge/index.js` (whatsapp-web.js client) — modelled below by
    definitions suffixed `W`;
  * `src/unnamed/part_000` (baileys client) — modelled below by definitions
    suffixed `B`.

JavaScript strings are embedded as `List Char` (`Str`).  The JS operations used
by the source are modelled faithfully:
  * `s.split(sep)` keeps empty fields and returns `[""]` on the empty string
    (`jsSplit`);
  * `s.trim()` removes surrounding whitespace (`jsTrim`);
  * `s.replace(pat, '')` removes the first occurrence only (`replaceFirst`);
  * `a || b` on strings selects `b` exactly when `a` is empty (`jsOrStr`).

Message handling is embedded as pure functions from the inbound message, the
mutable session map and the settled result of the `claude` subprocess to the
new session map and the trace of observable actions (`Event`: replies sent to
the chat, subprocess spawns, pacing delays).  The `runClaude` promise is
embedded as a first-write-wins latch over the process-close / spawn-error /
timeout events (`rcStepW`, `rcStepB`).
-/

/-- JavaScript strings, embedded as lists of characters. -/
abbrev Str := List Char

/-- Is `pat` an initial segment of `s`? (helper for `replaceFirst`). -/
def leadsWith : Str → Str → Bool
  | [], _ => true
  | _ :: _, [] => false
  | p :: ps, c :: cs => p == c && leadsWith ps cs

/-- JS `s.replace(pat, '')` with a plain-string pattern: removes the first
occurrence of `pat` from `s` (used for `'@c.us'` / `'@s.whatsapp.net'`
suffix stripping and `/^\+/` is modelled separately). -/
def replaceFirst (pat : Str) : Str → Str
  | [] => []
  | c :: cs =>
    if leadsWith pat (c :: cs) then List.drop pat.length (c :: cs)
    else c :: replaceFirst pat cs

/-- JS `s.endsWith(suf)`. -/
def endsIn (s suf : Str) : Bool := leadsWith suf.reverse s.reverse

/-- JS `s.split(sep)` for a single-character separator: splits on every
occurrence, keeps empty fields, and yields `[[]]` on the empty string. -/
def jsSplit (sep : Char) : Str → List Str
  | [] => [[]]
  | c :: cs =>
    match jsSplit sep cs with
    | [] => [[]]
    | s :: rest => if c = sep then [] :: s :: rest else (c :: s) :: rest

/-- JS `s.trim()`: strip surrounding whitespace. -/
def jsTrim (s : Str) : Str :=
  ((s.dropWhile Char.isWhitespace).reverse.dropWhile Char.isWhitespace).reverse

/-- JS `s.toLowerCase()` (ASCII, which covers the command literals). -/
def lowerStr (s : Str) : Str := s.map Char.toLower

/-- JS `a || b` on strings: `b` exactly when `a` is the empty string. -/
def jsOrStr (a b : Str) : Str := if a = [] then b else a

/-- JS `a || b` where `a : string | undefined` (e.g.
`msg.message.conversation || …`). -/
def jsOrOpt (a : Option Str) (b : Str) : Str :=
  match a with
  | some s => jsOrStr s b
  | none => b

/-- `MAX_RESPONSE_LENGTH` — chunking threshold, 4000 in both sources. -/
def MAX_RESPONSE_LENGTH : Nat := 4000

/-- `CLAUDE_TIMEOUT_MS` — 5 minutes in both sources. -/
def CLAUDE_TIMEOUT_MS : Nat := 5 * 60 * 1000

/-- An observable action of the handler: a reply sent back to the chat, a
subprocess spawn (`spawn('claude', args, { cwd })`), or a pacing delay
(`setTimeout(r, ms)`). -/
inductive Event where
  | reply (text : Str)
  | spawn (cmd : Str) (args : List Str) (cwd : Str)
  | delay (ms : Nat)
deriving DecidableEq, Repr

/-- The texts of the reply events of a trace. -/
def chunkReplies (evs : List Event) : List Str :=
  evs.filterMap fun e =>
    match e with
    | Event.reply t => some t
    | _ => none

/-- The spawn events of a trace. -/
def spawnsOf (evs : List Event) : List Event :=
  evs.filter fun e =>
    match e with
    | Event.spawn _ _ _ => true
    | _ => false

/-- The chunk label `` `📄 *Part ${part}:*\n\n` `` (identical in both sources). -/
def partLabel (n : Nat) : Str := "📄 *Part ".data ++ (toString n).data ++ ":*\n\n".data

/-- The two actions performed when a chunk is flushed inside the loop:
`message.reply(label + chunk)` then the 500 ms pacing delay. -/
def flushEvents (p : Nat) (body : Str) : List Event :=
  [Event.reply (partLabel p ++ body), Event.delay 500]

/-- State after running the chunking `for` loop of `sendLongMessage`. -/
structure ChunkOut where
  events : List Event
  chunk : Str
  part : Nat
deriving Repr

/-- The `for (const line of lines)` loop of `sendLongMessage` (identical in
both sources): if appending the next line would exceed the threshold, flush
the buffer as a labelled part (with pacing delay) and start a fresh buffer;
in either case append `line + '\n'` to the buffer. -/
def chunkLoop (part : Nat) (chunk : Str) : List Str → ChunkOut
  | [] => ⟨[], chunk, part⟩
  | line :: rest =>
    if chunk.length + line.length + 1 > MAX_RESPONSE_LENGTH then
      let r := chunkLoop (part + 1) (line ++ ['\n']) rest
      ⟨flushEvents part chunk ++ r.events, r.chunk, r.part⟩
    else
      chunkLoop part (chunk ++ line ++ ['\n']) rest

/-- `sendLongMessage(…, text)` (identical chunking logic in both sources):
send short texts verbatim as one reply; otherwise split on `'\n'`, run the
chunking loop, and flush the final buffer — labelled only when an earlier
flush happened (`part > 1`) — provided it is not whitespace-only. -/
def sendLongMessage (text : Str) : List Event :=
  if text.length ≤ MAX_RESPONSE_LENGTH then [Event.reply text]
  else
    let r := chunkLoop 1 [] (jsSplit '\n' text)
    r.events ++
      (if jsTrim r.chunk ≠ [] then
        [Event.reply (if r.part > 1 then partLabel r.part ++ r.chunk else r.chunk)]
      else [])

/-- Each line followed by a newline, concatenated — the shape of a chunk
buffer built by the loop. -/
def flatJoin (ls : List Str) : Str := (ls.map (fun l => l ++ ['\n'])).flatten

/-- Lines joined by single newlines (no trailing newline); inverse of
splitting on `'\n'` for newline-free lines. -/
def joinLines : List Str → Str
  | [] => []
  | [l] => l
  | l :: ls => l ++ '\n' :: joinLines ls

/-- Attach consecutive part labels `p, p+1, …` to a list of chunk bodies. -/
def labelAll : Nat → List Str → List Str
  | _, [] => []
  | p, b :: bs => (partLabel p ++ b) :: labelAll (p + 1) bs

/-- The flush events of a run of the loop whose successive flushed bodies are
`c ++ flatJoin t₁, flatJoin t₂, …` for the segments `t₁, t₂, …` of consumed
lines. -/
def flushRun : Nat → Str → List (List Str) → List Event
  | _, _, [] => []
  | p, c, t :: ts => flushEvents p (c ++ flatJoin t) ++ flushRun (p + 1) [] ts

/-- The successive flushed bodies corresponding to `flushRun`. -/
def bodiesOf (c : Str) : List (List Str) → List Str
  | [] => []
  | t :: ts => (c ++ flatJoin t) :: ts.map flatJoin

/-- The session map `activeSessions : Map sender → { busy }`, embedded as a
partial function; `none` models an absent entry. -/
def Sessions := Str → Option Bool

/-- `new Map()` — the empty session map at startup. -/
def initSessions : Sessions := fun _ => none

/-- JS `activeSessions.get(sender)?.busy` — `undefined` is falsy. -/
def getBusy (st : Sessions) (sender : Str) : Bool := (st sender).getD false

/-- JS `activeSessions.set(sender, { busy: b })`. -/
def setBusy (st : Sessions) (sender : Str) (b : Bool) : Sessions :=
  fun x => if x = sender then some b else st x

/-- The fixed task-listing prompt the `/tasks` command is rewritten to. -/
def TASKS_PROMPT : Str :=
  "List all tasks from data/tasks.json with their status. Be concise.".data

/-- The executable spawned by `runClaude`. -/
def claudeCmd : Str := "claude".data

/-- The argument list of the spawn: `['--print', '--max-turns', '3', prompt]`. -/
def claudeArgs (prompt : Str) : List Str :=
  ["--print".data, "--max-turns".data, "3".data, prompt]

/-- `'@c.us'` — suffix stripped from `message.from` in index.js. -/
def cusSuffix : Str := "@c.us".data

/-- `'@s.whatsapp.net'` — suffix stripped from the jid in part_000. -/
def waSuffix : Str := "@s.whatsapp.net".data

/-- `'@g.us'` — group jid suffix (part_000 guard). -/
def gUsSuffix : Str := "@g.us".data

/-- `'status@broadcast'` (part_000 guard). -/
def statusBroadcast : Str := "status@broadcast".data

def helpCmd : Str := "/help".data
def statusCmd : Str := "/status".data
def tasksCmd : Str := "/tasks".data

/-- Help text of index.js. -/
def helpTextW : Str :=
  ("🤖 *Mission Control WhatsApp Bridge*\n\nSend any message and Claude will process it.\n\n*Commands:*\n`/help` — Show this help\n`/status` — Check bridge status\n`/tasks` — List current tasks\n\n*Examples:*\n• \"Show me the current tasks\"\n• \"Create a new task: Fix login bug\"\n• \"What files were changed recently?\"\n• \"Run the tests\"\n\nEverything else is sent directly to Claude Code.").data

/-- Help text of part_000. -/
def helpTextB : Str :=
  ("🤖 *Mission Control WhatsApp Bridge*\n\nSend any message and Claude will process it.\n\n*Commands:*\n/help — Show this help\n/status — Bridge status\n/tasks — List tasks\n\n*Examples:*\n• \"Show me the current tasks\"\n• \"Create a new task: Fix login bug\"\n• \"What files changed recently?\"\n• \"Run the tests\"").data

/-- `/status` reply of index.js. -/
def statusTextW (workDir : Str) (busy : Bool) : Str :=
  "🟢 *Bridge Status*\n\nWorking directory: `".data ++ workDir ++
    "`\nSession active: ".data ++
    (if busy then "Yes (processing...)".data else "Idle".data)

/-- `/status` reply of part_000. -/
def statusTextB (workDir : Str) (busy : Bool) : Str :=
  "🟢 *Bridge Status*\n\nDir: ".data ++ workDir ++ "\nBusy: ".data ++
    (if busy then "Yes".data else "No".data)

/-- Busy notice of index.js. -/
def stillW : Str := "⏳ Still processing your previous command. Please wait...".data

/-- Busy notice of part_000. -/
def stillB : Str := "⏳ Still processing your previous command...".data

/-- The immediate acknowledgment sent before invoking the assistant. -/
def processingText : Str := "🔄 Processing...".data

/-- Prefix of error replies: `` `❌ Error: ${err.message}` ``. -/
def errHead : Str := "❌ Error: ".data

/-- `'(No output)'` fallback of `runClaude`. -/
def noOutputStr : Str := "(No output)".data

/-- `` `Claude exited with code ${code}` ``. -/
def exitMsg (code : Int) : Str := "Claude exited with code ".data ++ (toString code).data

/-- `'Command timed out after 5 minutes'`. -/
def timeoutMsg : Str := "Command timed out after 5 minutes".data

/-- `` `Failed to run Claude: ${err.message}` ``. -/
def spawnFailMsg (m : Str) : Str := "Failed to run Claude: ".data ++ m

/-- The `proc.on('close', code => …)` settlement policy of `runClaude`
(identical in both sources): resolve with `output.trim() || '(No output)'`
when `code === 0 || output.length > 0`, otherwise reject with
`` errorOutput.trim() || `Claude exited with code ${code}` ``. -/
def closeSettle (code : Int) (output errorOutput : Str) : Except Str Str :=
  if code = 0 ∨ 0 < output.length then
    Except.ok (jsOrStr (jsTrim output) noOutputStr)
  else
    Except.error (jsOrStr (jsTrim errorOutput) (exitMsg code))

/-- The asynchronous events that can settle the `runClaude` promise. -/
inductive RCEvent where
  | close (code : Int) (output errorOutput : Str)
  | spawnErr (msg : Str)
  | timeout
deriving DecidableEq

/-- State of one `runClaude` promise: the latched settled outcome (a JS
promise ignores every resolution/rejection after the first) and the `killed`
flag of part_000. -/
structure RCState where
  settled : Option (Except Str Str)
  killed : Bool

/-- Promise resolution/rejection: the first settlement wins, later ones are
ignored. -/
def promiseSettle (st : RCState) (o : Except Str Str) : RCState :=
  if st.settled.isSome then st else { st with settled := some o }

/-- Unsettled promise, `killed` not set. -/
def initRC : RCState := ⟨none, false⟩

/-- One asynchronous callback of `runClaude` in index.js: `close` settles per
`closeSettle`, `error` rejects with the spawn failure, the timeout callback
kills the process and rejects. -/
def rcStepW (st : RCState) : RCEvent → RCState
  | RCEvent.close code out err => promiseSettle st (closeSettle code out err)
  | RCEvent.spawnErr m => promiseSettle st (Except.error (spawnFailMsg m))
  | RCEvent.timeout => promiseSettle st (Except.error timeoutMsg)

/-- One asynchronous callback of `runClaude` in part_000: as in index.js, but
the close handler returns early when `killed` is set, and the timeout
callback sets `killed` before rejecting. -/
def rcStepB (st : RCState) : RCEvent → RCState
  | RCEvent.close code out err =>
    if st.killed then st else promiseSettle st (closeSettle code out err)
  | RCEvent.spawnErr m => promiseSettle st (Except.error (spawnFailMsg m))
  | RCEvent.timeout => promiseSettle { st with killed := true } (Except.error timeoutMsg)

/-- An inbound whatsapp-web.js message, with the fields read by index.js. -/
structure WMsg where
  isGroupMsg : Bool
  isStatus : Bool
  body : Str
  fromAddr : Str
deriving DecidableEq

/-- An inbound baileys message, with the fields read by part_000. -/
structure BMsg where
  hasMessage : Bool
  fromMe : Bool
  remoteJid : Str
  conversation : Option Str
  extendedText : Option Str
deriving DecidableEq

/-- The result of awaiting `runClaude` for one invocation: `ok` is the
resolved text, `error` is the message of any rejection (invocation error,
spawn error, or timeout). -/
abbrev RunOutcome := Except Str Str

/-- The trace produced by `await runClaude(...)` followed by either
`sendLongMessage(result)` or the `❌ Error:` reply of the catch block. -/
def invokeEvents (prompt workDir : Str) (oc : RunOutcome) : List Event :=
  Event.spawn claudeCmd (claudeArgs prompt) workDir ::
    (match oc with
     | Except.ok result => sendLongMessage result
     | Except.error e => [Event.reply (errHead ++ e)])

/-- The `client.on('message')` handler of index.js: drop group/status/empty
messages; drop unauthorized senders silently; answer `/help` and `/status`
directly; run `/tasks` through the assistant with no session interaction;
gate every other text on the per-sender busy flag, and release the flag in a
`finally` block after the invocation. -/
def onMessageW (auth : List Str) (workDir : Str) (st : Sessions) (m : WMsg)
    (oc : RunOutcome) : Sessions × List Event :=
  if m.isGroupMsg = true ∨ m.isStatus = true ∨ m.body = [] then (st, [])
  else if auth = [] ∨ replaceFirst cusSuffix m.fromAddr ∉ auth then (st, [])
  else if lowerStr (jsTrim m.body) = helpCmd then (st, [Event.reply helpTextW])
  else if lowerStr (jsTrim m.body) = statusCmd then
    (st, [Event.reply (statusTextW workDir (getBusy st (replaceFirst cusSuffix m.fromAddr)))])
  else if lowerStr (jsTrim m.body) = tasksCmd then
    (st, invokeEvents TASKS_PROMPT workDir oc)
  else if getBusy st (replaceFirst cusSuffix m.fromAddr) then (st, [Event.reply stillW])
  else
    (setBusy (setBusy st (replaceFirst cusSuffix m.fromAddr) true)
        (replaceFirst cusSuffix m.fromAddr) false,
      Event.reply processingText :: invokeEvents (jsTrim m.body) workDir oc)

/-- The `handleMessage(sock, jid, text)` function of part_000 (`text` is
already trimmed by the caller): answer `/help` and `/status` directly;
rewrite `/tasks` to the fixed task-listing prompt and fall through to the
busy gate; release the busy flag in a `finally` block after the
invocation. -/
def handleMessage (workDir : Str) (st : Sessions) (jid text : Str)
    (oc : RunOutcome) : Sessions × List Event :=
  if lowerStr text = helpCmd then (st, [Event.reply helpTextB])
  else if lowerStr text = statusCmd then
    (st, [Event.reply (statusTextB workDir (getBusy st (replaceFirst waSuffix jid)))])
  else if getBusy st (replaceFirst waSuffix jid) then (st, [Event.reply stillB])
  else
    (setBusy (setBusy st (replaceFirst waSuffix jid) true) (replaceFirst waSuffix jid) false,
      Event.reply processingText ::
        invokeEvents (if lowerStr text = tasksCmd then TASKS_PROMPT else text) workDir oc)

/-- One message of the `messages.upsert` handler of part_000: drop messages
without content, own messages, group messages and status broadcasts; drop
messages with no text body; drop unauthorized senders silently; otherwise
run `handleMessage` on the trimmed text. -/
def onMessageB (auth : List Str) (workDir : Str) (st : Sessions) (m : BMsg)
    (oc : RunOutcome) : Sessions × List Event :=
  if m.hasMessage = false ∨ m.fromMe = true ∨ endsIn m.remoteJid gUsSuffix = true ∨
      m.remoteJid = statusBroadcast then (st, [])
  else if jsTrim (jsOrOpt m.conversation (jsOrOpt m.extendedText [])) = [] then (st, [])
  else if auth = [] ∨ replaceFirst waSuffix m.remoteJid ∉ auth then (st, [])
  else handleMessage workDir st m.remoteJid
    (jsTrim (jsOrOpt m.conversation (jsOrOpt m.extendedText []))) oc

/-- `/^\+/` stripping of part_000: remove one leading `'+'` if present. -/
def stripPlusHead (s : Str) : Str :=
  match s with
  | [] => []
  | c :: r => if c = '+' then r else c :: r

/-- `AUTHORIZED_NUMBERS` of index.js: when the configuration string is set
and non-empty, split on commas and trim each entry; otherwise the empty
list. -/
def parseAuthorizedW (env : Option Str) : List Str :=
  match env with
  | some s => if s = [] then [] else (jsSplit ',' s).map jsTrim
  | none => []

/-- `AUTHORIZED_NUMBERS` of part_000: as in index.js but each trimmed entry
additionally loses one leading `'+'`. -/
def parseAuthorizedB (env : Option Str) : List Str :=
  match env with
  | some s => if s = [] then [] else (jsSplit ',' s).map (fun n => stripPlusHead (jsTrim n))
  | none => []

/-- The 9000-character scenario text of the chunking property: 89 lines of
100 characters and a final line of 11 characters, newline-separated. -/
def lines9000 : List Str :=
  List.replicate 89 (List.replicate 100 'a') ++ [List.replicate 11 'a']

def text9000 : Str := joinLines lines9000

/-- Input exhibiting the oversized-line behaviour: one 4001-character line
followed by a one-character line. -/
def textOversized : Str := List.replicate 4001 'a' ++ '\n' :: ['b']

/-! ## Basic facts about the session map and the handlers -/

theorem setBusy_same (st : Sessions) (s : Str) (b : Bool) : setBusy st s b s = some b := by
  simp [setBusy]

/-- Claim C1: Fail-closed authorization — for every inbound message whose
normalized sender identity is not contained in the authorization list
(including the empty-list case), the handler sends no reply of any kind and
spawns no subprocess, in both implementations: the handler returns the
unchanged session map and an empty action trace. -/
theorem c1_fail_closed_authorization (auth : List Str) (workDir : Str) (st : Sessions)
    (oc : RunOutcome) :
    (∀ m : WMsg, auth = [] ∨ replaceFirst cusSuffix m.fromAddr ∉ auth →
      onMessageW auth workDir st m oc = (st, [])) ∧
    (∀ m : BMsg, auth = [] ∨ replaceFirst waSuffix m.remoteJid ∉ auth →
      onMessageB auth workDir st m oc = (st, [])) := by
  constructor
  · intro m h
    rcases h with he | hn
    · simp [onMessageW, he]
    · simp [onMessageW, hn]
  · intro m h
    rcases h with he | hn
    · simp [onMessageB, he]
    · simp [onMessageB, hn]

theorem c1_fail_closed_authorization_witness :
    onMessageW [] "wd".data initSessions
      ⟨false, false, "hi".data, "15551234567@c.us".data⟩ (Except.error []) =
      (initSessions, []) ∧
    onMessageB [] "wd".data initSessions
      ⟨true, false, "15551234567@s.whatsapp.net".data, some "hi".data, none⟩
      (Except.error []) = (initSessions, []) :=
  ⟨(c1_fail_closed_authorization [] "wd".data initSessions (Except.error [])).1 _
      (Or.inl rfl),
   (c1_fail_closed_authorization [] "wd".data initSessions (Except.error [])).2 _
      (Or.inl rfl)⟩

/-- Claim C3: Guaranteed busy release — the startup session map has no entry
for any sender (so `session?.busy` is falsy before a fresh sender's first
message), and in both implementations the free-form invocation path leaves
the sender's entry present with `busy = false` for every invocation outcome
(success, invocation error, spawn error, or timeout are all values of
`RunOutcome`). -/
theorem c3_busy_release (workDir : Str) :
    (∀ s, initSessions s = none) ∧
    (∀ (st : Sessions) (jid text : Str) (oc : RunOutcome),
      lowerStr text ≠ helpCmd → lowerStr text ≠ statusCmd →
      getBusy st (replaceFirst waSuffix jid) = false →
      (handleMessage workDir st jid text oc).1 (replaceFirst waSuffix jid) = some false) ∧
    (∀ (auth : List Str) (st : Sessions) (m : WMsg) (oc : RunOutcome),
      m.isGroupMsg = false → m.isStatus = false → m.body ≠ [] →
      replaceFirst cusSuffix m.fromAddr ∈ auth →
      lowerStr (jsTrim m.body) ≠ helpCmd → lowerStr (jsTrim m.body) ≠ statusCmd →
      lowerStr (jsTrim m.body) ≠ tasksCmd →
      getBusy st (replaceFirst cusSuffix m.fromAddr) = false →
      (onMessageW auth workDir st m oc).1 (replaceFirst cusSuffix m.fromAddr) = some false) := by
  refine ⟨fun _ => rfl, ?_, ?_⟩
  · intro st jid text oc h1 h2 hb
    unfold handleMessage
    rw [if_neg h1, if_neg h2, if_neg (by simp [hb])]
    exact setBusy_same _ _ _
  · intro auth st m oc hg hs hb hmem h1 h2 h3 hbusy
    unfold onMessageW
    rw [if_neg (by simp [hg, hs, hb])]
    rw [if_neg (by push_neg; exact ⟨List.ne_nil_of_mem hmem, hmem⟩)]
    rw [if_neg h1, if_neg h2, if_neg h3, if_neg (by simp [hbusy])]
    exact setBusy_same _ _ _

theorem c3_busy_release_witness :
    (handleMessage "wd".data initSessions "15551234567@s.whatsapp.net".data
        "hello".data (Except.error [])).1 "15551234567".data = some false ∧
    (onMessageW ["15551234567".data] "wd".data initSessions
        ⟨false, false, "hello".data, "15551234567@c.us".data⟩ (Except.ok [])).1
        "15551234567".data = some false := by
  have h1 := (c3_busy_release "wd".data).2.1 initSessions
    "15551234567@s.whatsapp.net".data "hello".data (Except.error [])
    (by decide) (by decide) rfl
  have h2 := (c3_busy_release "wd".data).2.2 ["15551234567".data] initSessions
    ⟨false, false, "hello".data, "15551234567@c.us".data⟩ (Except.ok [])
    rfl rfl (by decide) (by decide) (by decide) (by decide) (by decide) rfl
  constructor
  · have he : replaceFirst waSuffix "15551234567@s.whatsapp.net".data =
      "15551234567".data := by decide
    rwa [he] at h1
  · have he : replaceFirst cusSuffix "15551234567@c.us".data = "15551234567".data := by
      decide
    rwa [he] at h2

/-! ## runClaude: settlement policy and single settlement -/

/-- Claim C4: Invoker result policy — the close handler resolves with trimmed
stdout (or the literal `(No output)` when trimmed stdout is empty) exactly
when the process exits with code 0 or exits non-zero with non-empty
accumulated stdout, and rejects with the trimmed stderr text (or
`Claude exited with code N` when that text is empty) exactly when the
process exits non-zero with empty stdout. -/
theorem c4_runclaude_result_policy (code : Int) (out err : Str) :
    (closeSettle code out err =
        Except.ok (if jsTrim out = [] then noOutputStr else jsTrim out) ↔
      code = 0 ∨ out ≠ []) ∧
    (closeSettle code out err =
        Except.error (if jsTrim err = [] then exitMsg code else jsTrim err) ↔
      code ≠ 0 ∧ out = []) := by
  by_cases hc : code = 0 ∨ 0 < out.length
  · have hc' : code = 0 ∨ out ≠ [] := by
      rcases hc with h | h
      · exact Or.inl h
      · exact Or.inr (List.length_pos.mp h)
    constructor
    · simp only [closeSettle, if_pos hc, jsOrStr]
      exact iff_of_true (by trivial) hc'
    · simp only [closeSettle, if_pos hc]
      constructor
      · intro h; simp at h
      · rintro ⟨hne, hnil⟩
        rcases hc with h | h
        · exact absurd h hne
        · rw [hnil] at h; simp at h
  · have hc' : ¬(code = 0 ∨ out ≠ []) := by
      intro h
      rcases h with h | h
      · exact hc (Or.inl h)
      · exact hc (Or.inr (List.length_pos.mpr h))
    constructor
    · simp only [closeSettle, if_neg hc]
      constructor
      · intro h; simp at h
      · intro h; exact absurd h hc'
    · simp only [closeSettle, if_neg hc, jsOrStr]
      refine iff_of_true (by trivial) ?_
      push_neg at hc
      exact ⟨hc.1, List.length_eq_zero.mp (Nat.le_zero.mp hc.2)⟩

/-- The promise latch is stable in index.js: once settled, later events
never change the outcome. -/
theorem rcFoldW_latched (evs : List RCEvent) :
    ∀ (st : RCState) (o : Except Str Str), st.settled = some o →
      (evs.foldl rcStepW st).settled = some o := by
  induction evs with
  | nil => intro st o h; exact h
  | cons e rest ih =>
    intro st o h
    apply ih
    cases e with
    | close c out err => simp [rcStepW, promiseSettle, h]
    | spawnErr m => simp [rcStepW, promiseSettle, h]
    | timeout => simp [rcStepW, promiseSettle, h]

/-- The promise latch is stable in part_000: once settled, later events
never change the outcome. -/
theorem rcFoldB_latched (evs : List RCEvent) :
    ∀ (st : RCState) (o : Except Str Str), st.settled = some o →
      (evs.foldl rcStepB st).settled = some o := by
  induction evs with
  | nil => intro st o h; exact h
  | cons e rest ih =>
    intro st o h
    apply ih
    cases e with
    | close c out err =>
      by_cases hk : st.killed
      · simpa [rcStepB, hk] using h
      · simp [rcStepB, hk, promiseSettle, h]
    | spawnErr m => simp [rcStepB, promiseSettle, h]
    | timeout => simp [rcStepB, promiseSettle, h]

/-- Claim C5: Latched single outcome — for every invocation, once the promise
is settled its outcome never changes in either implementation (first two
conjuncts); in particular a run that settles via process close first keeps
the close settlement as its outcome regardless of a later timeout firing,
and a run whose timeout fires first keeps the timeout rejection as its
outcome regardless of a later process close. -/
theorem c5_latched_single_outcome :
    (∀ (st : RCState) (o : Except Str Str) (evs : List RCEvent),
      st.settled = some o → (evs.foldl rcStepW st).settled = some o) ∧
    (∀ (st : RCState) (o : Except Str Str) (evs : List RCEvent),
      st.settled = some o → (evs.foldl rcStepB st).settled = some o) ∧
    (∀ (code : Int) (out err : Str) (rest : List RCEvent),
      ((RCEvent.close code out err :: rest).foldl rcStepW initRC).settled =
        some (closeSettle code out err)) ∧
    (∀ (code : Int) (out err : Str) (rest : List RCEvent),
      ((RCEvent.close code out err :: rest).foldl rcStepB initRC).settled =
        some (closeSettle code out err)) ∧
    (∀ rest : List RCEvent,
      ((RCEvent.timeout :: rest).foldl rcStepW initRC).settled =
        some (Except.error timeoutMsg)) ∧
    (∀ rest : List RCEvent,
      ((RCEvent.timeout :: rest).foldl rcStepB initRC).settled =
        some (Except.error timeoutMsg)) := by
  refine ⟨fun st o evs h => rcFoldW_latched evs st o h,
    fun st o evs h => rcFoldB_latched evs st o h, ?_, ?_, ?_, ?_⟩
  · intro code out err rest
    exact rcFoldW_latched rest _ _ (by simp [rcStepW, promiseSettle, initRC])
  · intro code out err rest
    exact rcFoldB_latched rest _ _ (by simp [rcStepB, promiseSettle, initRC])
  · intro rest
    exact rcFoldW_latched rest _ _ (by simp [rcStepW, promiseSettle, initRC])
  · intro rest
    exact rcFoldB_latched rest _ _ (by simp [rcStepB, promiseSettle, initRC])

theorem c5_latched_single_outcome_witness :
    (([RCEvent.timeout].foldl rcStepW ⟨some (Except.ok []), false⟩).settled =
      some (Except.ok [])) ∧
    (([RCEvent.timeout].foldl rcStepB ⟨some (Except.ok []), false⟩).settled =
      some (Except.ok [])) :=
  ⟨c5_latched_single_outcome.1 ⟨some (Except.ok []), false⟩ (Except.ok [])
      [RCEvent.timeout] rfl,
   c5_latched_single_outcome.2.1 ⟨some (Except.ok []), false⟩ (Except.ok [])
      [RCEvent.timeout] rfl⟩

/-! ## Per-sender serialization (busy gate) -/

/-- Counterexample to claim C2: in index.js, a busy sender's `/tasks` message
is not answered with the still-processing notice and does trigger a
subprocess invocation — the `/tasks` branch never consults the busy flag.
Sender `15551234567` is authorized and busy, sends `/tasks`, and the trace
contains a spawn and no still-processing reply. -/
theorem c2_busy_gate_counterexample :
    (onMessageW ["15551234567".data] "wd".data
        (setBusy initSessions "15551234567".data true)
        ⟨false, false, "/tasks".data, "15551234567@c.us".data⟩ (Except.error ['e'])).2 =
      [Event.spawn claudeCmd (claudeArgs TASKS_PROMPT) "wd".data,
       Event.reply (errHead ++ ['e'])] ∧
    Event.reply stillW ∉
      (onMessageW ["15551234567".data] "wd".data
        (setBusy initSessions "15551234567".data true)
        ⟨false, false, "/tasks".data, "15551234567@c.us".data⟩ (Except.error ['e'])).2 := by
  constructor
  · decide
  · decide

/-- Claim C2 (amended): per-sender busy gating — in the part_000
implementation, whenever a sender's busy flag is true, any inbound message
that would reach the invoker (any free-form prompt, and `/tasks` after its
rewrite) is answered with exactly one still-processing notice, triggers no
subprocess invocation, and leaves the session map unchanged; in the index.js
implementation the same holds for free-form prompts only, since its `/tasks`
branch invokes the subprocess without consulting the busy flag. -/
theorem c2_busy_gate_amended :
    (∀ (workDir : Str) (st : Sessions) (jid text : Str) (oc : RunOutcome),
      lowerStr text ≠ helpCmd → lowerStr text ≠ statusCmd →
      getBusy st (replaceFirst waSuffix jid) = true →
      handleMessage workDir st jid text oc = (st, [Event.reply stillB])) ∧
    (∀ (auth : List Str) (workDir : Str) (st : Sessions) (m : WMsg) (oc : RunOutcome),
      m.isGroupMsg = false → m.isStatus = false → m.body ≠ [] →
      replaceFirst cusSuffix m.fromAddr ∈ auth →
      lowerStr (jsTrim m.body) ≠ helpCmd → lowerStr (jsTrim m.body) ≠ statusCmd →
      lowerStr (jsTrim m.body) ≠ tasksCmd →
      getBusy st (replaceFirst cusSuffix m.fromAddr) = true →
      onMessageW auth workDir st m oc = (st, [Event.reply stillW])) := by
  constructor
  · intro workDir st jid text oc h1 h2 hb
    unfold handleMessage
    rw [if_neg h1, if_neg h2, if_pos (by simp [hb])]
  · intro auth workDir st m oc hg hs hb hmem h1 h2 h3 hbusy
    unfold onMessageW
    rw [if_neg (by simp [hg, hs, hb])]
    rw [if_neg (by push_neg; exact ⟨List.ne_nil_of_mem hmem, hmem⟩)]
    rw [if_neg h1, if_neg h2, if_neg h3, if_pos (by simp [hbusy])]

theorem c2_busy_gate_amended_witness :
    handleMessage "wd".data (setBusy initSessions "15551234567".data true)
        "15551234567@s.whatsapp.net".data "/tasks".data (Except.ok []) =
      (setBusy initSessions "15551234567".data true, [Event.reply stillB]) ∧
    onMessageW ["15551234567".data] "wd".data
        (setBusy initSessions "15551234567".data true)
        ⟨false, false, "hello".data, "15551234567@c.us".data⟩ (Except.ok []) =
      (setBusy initSessions "15551234567".data true, [Event.reply stillW]) :=
  ⟨c2_busy_gate_amended.1 "wd".data (setBusy initSessions "15551234567".data true)
      "15551234567@s.whatsapp.net".data "/tasks".data (Except.ok [])
      (by decide) (by decide) (by decide),
   c2_busy_gate_amended.2 ["15551234567".data] "wd".data
      (setBusy initSessions "15551234567".data true)
      ⟨false, false, "hello".data, "15551234567@c.us".data⟩ (Except.ok [])
      rfl rfl (by decide) (by decide) (by decide) (by decide) (by decide) (by decide)⟩

/-! ## Spawn traces -/

theorem spawnsOf_append (a b : List Event) :
    spawnsOf (a ++ b) = spawnsOf a ++ spawnsOf b := by
  simp [spawnsOf]

theorem spawnsOf_cons_reply (t : Str) (l : List Event) :
    spawnsOf (Event.reply t :: l) = spawnsOf l := by
  simp [spawnsOf]

theorem spawnsOf_cons_spawn (c : Str) (a : List Str) (w : Str) (l : List Event) :
    spawnsOf (Event.spawn c a w :: l) = Event.spawn c a w :: spawnsOf l := by
  simp [spawnsOf]

theorem chunkLoop_no_spawn (lines : List Str) :
    ∀ (p : Nat) (c : Str), spawnsOf (chunkLoop p c lines).events = [] := by
  induction lines with
  | nil => intro p c; rfl
  | cons line rest ih =>
    intro p c
    by_cases hf : c.length + line.length + 1 > MAX_RESPONSE_LENGTH
    · simp only [chunkLoop, if_pos hf]
      rw [spawnsOf_append, ih]
      simp [flushEvents, spawnsOf]
    · simp only [chunkLoop, if_neg hf]
      exact ih _ _

/-- The chunker only ever replies and pauses; it never spawns a process. -/
theorem sendLong_no_spawn (t : Str) : spawnsOf (sendLongMessage t) = [] := by
  unfold sendLongMessage
  by_cases hl : t.length ≤ MAX_RESPONSE_LENGTH
  · simp [hl, spawnsOf]
  · rw [if_neg hl, spawnsOf_append, chunkLoop_no_spawn]
    by_cases ht : jsTrim (chunkLoop 1 [] (jsSplit '\n' t)).chunk ≠ []
    · simp [ht, spawnsOf]
    · simp [ht, spawnsOf]

/-- The full invocation trace contains exactly one spawn: the `claude`
invocation with the prompt. -/
theorem invokeEvents_spawns (prompt workDir : Str) (oc : RunOutcome) :
    spawnsOf (invokeEvents prompt workDir oc) =
      [Event.spawn claudeCmd (claudeArgs prompt) workDir] := by
  cases oc with
  | ok r =>
    unfold invokeEvents
    rw [spawnsOf_cons_spawn, sendLong_no_spawn]
  | error e =>
    unfold invokeEvents
    rw [spawnsOf_cons_spawn, spawnsOf_cons_reply]
    rfl

/-- Claim C8: Round-trip of `/tasks` — in part_000, handling `/tasks` is
identical, action for action and state for state, to handling the literal
rewritten task-listing prompt as free-form text; in index.js, for an
authorized non-busy sender, both the `/tasks` message and the free-form
prompt message produce exactly the single subprocess call
`spawn('claude', ['--print', '--max-turns', '3', TASKS_PROMPT], workDir)`. -/
theorem c8_tasks_roundtrip :
    (∀ (workDir : Str) (st : Sessions) (jid : Str) (oc : RunOutcome),
      handleMessage workDir st jid tasksCmd oc =
        handleMessage workDir st jid TASKS_PROMPT oc) ∧
    (∀ (auth : List Str) (workDir : Str) (st : Sessions) (fa : Str) (oc : RunOutcome)
        (body : Str),
      body ≠ [] → lowerStr (jsTrim body) = tasksCmd →
      replaceFirst cusSuffix fa ∈ auth →
      getBusy st (replaceFirst cusSuffix fa) = false →
      spawnsOf (onMessageW auth workDir st ⟨false, false, body, fa⟩ oc).2 =
          [Event.spawn claudeCmd (claudeArgs TASKS_PROMPT) workDir] ∧
      spawnsOf (onMessageW auth workDir st ⟨false, false, TASKS_PROMPT, fa⟩ oc).2 =
          [Event.spawn claudeCmd (claudeArgs TASKS_PROMPT) workDir]) := by
  constructor
  · intro workDir st jid oc
    unfold handleMessage
    rw [if_neg (show ¬(lowerStr tasksCmd = helpCmd) by decide),
      if_neg (show ¬(lowerStr tasksCmd = statusCmd) by decide),
      if_neg (show ¬(lowerStr TASKS_PROMPT = helpCmd) by decide),
      if_neg (show ¬(lowerStr TASKS_PROMPT = statusCmd) by decide),
      if_pos (show lowerStr tasksCmd = tasksCmd by decide),
      if_neg (show ¬(lowerStr TASKS_PROMPT = tasksCmd) by decide)]
  · intro auth workDir st fa oc body hbody htask hmem hbusy
    have hauth : ¬(auth = [] ∨ replaceFirst cusSuffix fa ∉ auth) := by
      push_neg
      exact ⟨List.ne_nil_of_mem hmem, hmem⟩
    constructor
    · unfold onMessageW
      rw [if_neg (by simp [hbody])]
      simp only
      rw [if_neg hauth, htask]
      rw [if_neg (show ¬(tasksCmd = helpCmd) by decide),
        if_neg (show ¬(tasksCmd = statusCmd) by decide),
        if_pos rfl]
      exact invokeEvents_spawns TASKS_PROMPT workDir oc
    · unfold onMessageW
      rw [if_neg (by simp [show TASKS_PROMPT ≠ [] by decide])]
      simp only
      rw [if_neg hauth]
      rw [show jsTrim TASKS_PROMPT = TASKS_PROMPT by decide]
      rw [if_neg (show ¬(lowerStr TASKS_PROMPT = helpCmd) by decide),
        if_neg (show ¬(lowerStr TASKS_PROMPT = statusCmd) by decide),
        if_neg (show ¬(lowerStr TASKS_PROMPT = tasksCmd) by decide),
        if_neg (by simp [hbusy])]
      rw [spawnsOf_cons_reply]
      exact invokeEvents_spawns TASKS_PROMPT workDir oc

theorem c8_tasks_roundtrip_witness :
    spawnsOf (onMessageW ["15551234567".data] "wd".data initSessions
        ⟨false, false, "/tasks".data, "15551234567@c.us".data⟩ (Except.error [])).2 =
      [Event.spawn claudeCmd (claudeArgs TASKS_PROMPT) "wd".data] ∧
    spawnsOf (onMessageW ["15551234567".data] "wd".data initSessions
        ⟨false, false, TASKS_PROMPT, "15551234567@c.us".data⟩ (Except.error [])).2 =
      [Event.spawn claudeCmd (claudeArgs TASKS_PROMPT) "wd".data] :=
  c8_tasks_roundtrip.2 ["15551234567".data] "wd".data initSessions
    "15551234567@c.us".data (Except.error []) "/tasks".data
    (by decide) (by decide) (by decide) rfl

/-! ## Allow-list parsing -/

theorem dropWhile_eq_self_of_all {α : Type} (p : α → Bool) (l : List α)
    (h : ∀ x ∈ l, p x = false) : l.dropWhile p = l := by
  cases l with
  | nil => rfl
  | cons a as => simp [List.dropWhile_cons, h a (by simp)]

/-- Trimming a string with no whitespace anywhere leaves it unchanged. -/
theorem jsTrim_id (s : Str) (h : ∀ c ∈ s, c.isWhitespace = false) : jsTrim s = s := by
  unfold jsTrim
  rw [dropWhile_eq_self_of_all _ s h,
    dropWhile_eq_self_of_all _ s.reverse (by intro c hc; exact h c (List.mem_reverse.mp hc)),
    List.reverse_reverse]

/-- Splitting a string that does not contain the separator yields the one
whole string. -/
theorem jsSplit_no_sep (sep : Char) (l : Str) (h : sep ∉ l) : jsSplit sep l = [l] := by
  induction l with
  | nil => rfl
  | cons c cs ih =>
    have hcs : sep ∉ cs := fun hm => h (List.mem_cons_of_mem c hm)
    have hc : ¬(c = sep) := fun he => h (he ▸ List.mem_cons_self c cs)
    simp only [jsSplit]
    rw [ih hcs]
    simp [hc]

/-- Counterexample to claim C9: the index.js allow-list parser does not strip
a leading `+` — a configuration value `+15551234567` stays `+15551234567`
there (while part_000 reduces it to `15551234567`), so with that
configuration the sender identity `15551234567` is unauthorized in index.js
and its messages are dropped without a reply. -/
theorem c9_allowlist_counterexample :
    parseAuthorizedW (some ('+' :: "15551234567".data)) = ['+' :: "15551234567".data] ∧
    parseAuthorizedB (some ('+' :: "15551234567".data)) = ["15551234567".data] ∧
    "15551234567".data ∉ parseAuthorizedW (some ('+' :: "15551234567".data)) ∧
    onMessageW (parseAuthorizedW (some ('+' :: "15551234567".data))) "wd".data
        initSessions ⟨false, false, "hello".data, "15551234567@c.us".data⟩
        (Except.error []) =
      (initSessions, []) :=
  ⟨by decide, by decide, by decide, rfl⟩

/-- Claim C9 (amended): the authorization list is obtained by splitting the
configuration string on commas and trimming each entry of surrounding
whitespace in both implementations; only the part_000 implementation also
strips one leading `+`, so there a configured `+number` authorizes the same
identity as `number`, while in index.js the entry keeps its leading `+`
verbatim. -/
theorem c9_allowlist_amended (n : Str) (hne : n ≠ [])
    (h : ∀ c ∈ n, c.isWhitespace = false ∧ c ≠ ',' ∧ c ≠ '+') :
    parseAuthorizedB (some ('+' :: n)) = [n] ∧
    parseAuthorizedB (some n) = [n] ∧
    parseAuthorizedW (some n) = [n] ∧
    parseAuthorizedW (some ('+' :: n)) = ['+' :: n] := by
  have hn_ws : ∀ c ∈ n, c.isWhitespace = false := fun c hc => (h c hc).1
  have hn_comma : ',' ∉ n := fun hc => (h ',' hc).2.1 rfl
  have htrim : jsTrim n = n := jsTrim_id n hn_ws
  have htrim' : jsTrim ('+' :: n) = '+' :: n := by
    apply jsTrim_id
    intro c hc
    rcases List.mem_cons.mp hc with rfl | hc
    · rfl
    · exact hn_ws c hc
  have hsplit : jsSplit ',' n = [n] := jsSplit_no_sep ',' n hn_comma
  have hsplit' : jsSplit ',' ('+' :: n) = ['+' :: n] := by
    apply jsSplit_no_sep
    intro hc
    rcases List.mem_cons.mp hc with he | hc
    · exact absurd he (by decide)
    · exact hn_comma hc
  have hplus : stripPlusHead n = n := by
    cases n with
    | nil => rfl
    | cons c r =>
      simp [stripPlusHead, (h c (by simp)).2.2]
  refine ⟨?_, ?_, ?_, ?_⟩
  · simp [parseAuthorizedB, hsplit', htrim', stripPlusHead]
  · simp [parseAuthorizedB, hne, hsplit, htrim, hplus]
  · simp [parseAuthorizedW, hne, hsplit, htrim]
  · simp [parseAuthorizedW, hsplit', htrim']

theorem c9_allowlist_amended_witness :
    parseAuthorizedB (some ('+' :: "15551234567".data)) = ["15551234567".data] ∧
    parseAuthorizedB (some "15551234567".data) = ["15551234567".data] ∧
    parseAuthorizedW (some "15551234567".data) = ["15551234567".data] ∧
    parseAuthorizedW (some ('+' :: "15551234567".data)) = ['+' :: "15551234567".data] :=
  c9_allowlist_amended "15551234567".data (by decide) (by decide)

/-! ## Chunker: structure of the loop -/

theorem flatJoin_nil : flatJoin [] = [] := rfl

theorem flatJoin_cons (l : Str) (ls : List Str) :
    flatJoin (l :: ls) = (l ++ ['\n']) ++ flatJoin ls := by
  simp [flatJoin]

theorem flatJoin_append (a b : List Str) :
    flatJoin (a ++ b) = flatJoin a ++ flatJoin b := by
  simp [flatJoin]

theorem flatJoin_length (ls : List Str) :
    (flatJoin ls).length = (ls.map List.length).sum + ls.length := by
  induction ls with
  | nil => rfl
  | cons l rest ih =>
    rw [flatJoin_cons, List.length_append, List.length_append, ih]
    simp only [List.map_cons, List.sum_cons, List.length_cons, List.length_nil]
    omega

theorem jsSplit_ne_nil (sep : Char) (l : Str) : jsSplit sep l ≠ [] := by
  cases l with
  | nil => simp [jsSplit]
  | cons c cs =>
    simp only [jsSplit]
    cases jsSplit sep cs with
    | nil => simp
    | cons s rest =>
      by_cases h : c = sep
      · simp [h]
      · simp [h]

/-- Splitting on newlines and rejoining each field with a trailing newline
reconstructs the text plus one extra newline. -/
theorem flatJoin_jsSplit (t : Str) : flatJoin (jsSplit '\n' t) = t ++ ['\n'] := by
  induction t with
  | nil => rfl
  | cons c cs ih =>
    rcases hs : jsSplit '\n' cs with _ | ⟨s, rest⟩
    · exact absurd hs (jsSplit_ne_nil '\n' cs)
    · rw [hs] at ih
      by_cases h : c = '\n'
      · have hred : jsSplit '\n' (c :: cs) = [] :: s :: rest := by
          simp only [jsSplit, hs]
          rw [if_pos h]
        rw [hred, flatJoin_cons, ih, h]
        simp
      · have hred : jsSplit '\n' (c :: cs) = (c :: s) :: rest := by
          simp only [jsSplit, hs]
          rw [if_neg h]
        rw [hred, flatJoin_cons]
        rw [flatJoin_cons] at ih
        simp only [List.cons_append, List.append_assoc] at ih ⊢
        rw [ih]

theorem jsSplit_append_sep (sep : Char) (l r : Str) (h : sep ∉ l) :
    jsSplit sep (l ++ sep :: r) = l :: jsSplit sep r := by
  induction l with
  | nil =>
    simp only [List.nil_append, jsSplit]
    rcases hs : jsSplit sep r with _ | ⟨s, rest⟩
    · exact absurd hs (jsSplit_ne_nil sep r)
    · simp
  | cons c cs ih =>
    have hcs : sep ∉ cs := fun hm => h (List.mem_cons_of_mem c hm)
    have hc : ¬(c = sep) := fun he => h (he ▸ List.mem_cons_self c cs)
    show jsSplit sep (c :: (cs ++ sep :: r)) = (c :: cs) :: jsSplit sep r
    simp only [jsSplit, ih hcs]
    simp [hc]

/-- Splitting the newline-join of newline-free lines recovers the lines. -/
theorem jsSplit_joinLines (ls : List Str) (h0 : ls ≠ [])
    (h1 : ∀ l ∈ ls, '\n' ∉ l) : jsSplit '\n' (joinLines ls) = ls := by
  induction ls with
  | nil => exact absurd rfl h0
  | cons l rest ih =>
    cases rest with
    | nil =>
      show jsSplit '\n' l = [l]
      exact jsSplit_no_sep '\n' l (h1 l (by simp))
    | cons m ms =>
      show jsSplit '\n' (l ++ '\n' :: joinLines (m :: ms)) = l :: m :: ms
      rw [jsSplit_append_sep '\n' l _ (h1 l (by simp))]
      rw [ih (by simp) (fun x hx => h1 x (List.mem_cons_of_mem l hx))]

/-- For nonempty line lists, the loop-shaped join is the newline-join plus a
final newline. -/
theorem flatJoin_joinLines (ls : List Str) (h0 : ls ≠ []) :
    flatJoin ls = joinLines ls ++ ['\n'] := by
  induction ls with
  | nil => exact absurd rfl h0
  | cons l rest ih =>
    cases rest with
    | nil => simp [flatJoin, joinLines]
    | cons m ms =>
      rw [flatJoin_cons, ih (by simp)]
      show _ = (l ++ '\n' :: joinLines (m :: ms)) ++ ['\n']
      simp

theorem joinLines_length_add_one (ls : List Str) (h0 : ls ≠ []) :
    (joinLines ls).length + 1 = (ls.map List.length).sum + ls.length := by
  have h := congrArg List.length (flatJoin_joinLines ls h0)
  rw [flatJoin_length] at h
  simp only [List.length_append, List.length_singleton] at h
  omega

theorem labelAll_append_single (bs : List Str) :
    ∀ (p : Nat) (b : Str),
      labelAll p (bs ++ [b]) = labelAll p bs ++ [partLabel (p + bs.length) ++ b] := by
  induction bs with
  | nil => intro p b; simp [labelAll]
  | cons x xs ih =>
    intro p b
    show (partLabel p ++ x) :: labelAll (p + 1) (xs ++ [b]) = _
    rw [ih (p + 1) b]
    simp only [labelAll, List.cons_append, List.length_cons]
    have : p + 1 + xs.length = p + (xs.length + 1) := by omega
    rw [this]

theorem labelAll_inj (bs : List Str) :
    ∀ (p : Nat) (cs : List Str), labelAll p bs = labelAll p cs → bs = cs := by
  induction bs with
  | nil =>
    intro p cs h
    cases cs with
    | nil => rfl
    | cons c cs' => exact absurd h (by simp [labelAll])
  | cons b bs' ih =>
    intro p cs h
    cases cs with
    | nil => exact absurd h (by simp [labelAll])
    | cons c cs' =>
      simp only [labelAll, List.cons.injEq] at h
      obtain ⟨h1, h2⟩ := h
      have hb : b = c := List.append_cancel_left h1
      rw [hb, ih (p + 1) cs' h2]

theorem chunkReplies_append (a b : List Event) :
    chunkReplies (a ++ b) = chunkReplies a ++ chunkReplies b := by
  simp [chunkReplies]

theorem bodiesOf_nil_left (segs : List (List Str)) :
    bodiesOf [] segs = segs.map flatJoin := by
  cases segs with
  | nil => rfl
  | cons t ts => simp [bodiesOf]

theorem chunkReplies_flushEvents (p : Nat) (b : Str) :
    chunkReplies (flushEvents p b) = [partLabel p ++ b] := rfl

theorem flushRun_replies (segs : List (List Str)) :
    ∀ (p : Nat) (c : Str), chunkReplies (flushRun p c segs) = labelAll p (bodiesOf c segs) := by
  induction segs with
  | nil => intro p c; rfl
  | cons t ts ih =>
    intro p c
    show chunkReplies (flushEvents p (c ++ flatJoin t) ++ flushRun (p + 1) [] ts) = _
    rw [chunkReplies_append, ih (p + 1) [], bodiesOf_nil_left, chunkReplies_flushEvents]
    rfl

theorem flatten_map_flatJoin (segs : List (List Str)) :
    (segs.map flatJoin).flatten = flatJoin segs.flatten := by
  induction segs with
  | nil => rfl
  | cons t ts ih =>
    simp only [List.map_cons, List.flatten_cons, ih, List.flatten_cons, flatJoin_append]

theorem chunkLoop_part_ge (lines : List Str) :
    ∀ (p : Nat) (c : Str), p ≤ (chunkLoop p c lines).part := by
  induction lines with
  | nil => intro p c; exact Nat.le_refl p
  | cons line rest ih =>
    intro p c
    by_cases hf : c.length + line.length + 1 > MAX_RESPONSE_LENGTH
    · simp only [chunkLoop, if_pos hf]
      exact Nat.le_of_succ_le (ih (p + 1) (line ++ ['\n']))
    · simp only [chunkLoop, if_neg hf]
      exact ih p (c ++ line ++ ['\n'])

/-- If the loop never flushed (the part counter is unchanged), the final
buffer is the initial buffer followed by every line, and — because every
append passed the threshold test — it is within the threshold whenever at
least one line was consumed. -/
theorem chunkLoop_noflush (lines : List Str) :
    ∀ (p : Nat) (c : Str), (chunkLoop p c lines).part = p →
      (chunkLoop p c lines).chunk = c ++ flatJoin lines ∧
      (lines ≠ [] → (chunkLoop p c lines).chunk.length ≤ MAX_RESPONSE_LENGTH) := by
  induction lines with
  | nil =>
    intro p c _
    exact ⟨by simp [chunkLoop, flatJoin], fun h => absurd rfl h⟩
  | cons line rest ih =>
    intro p c h
    by_cases hf : c.length + line.length + 1 > MAX_RESPONSE_LENGTH
    · exfalso
      have hge := chunkLoop_part_ge rest (p + 1) (line ++ ['\n'])
      simp only [chunkLoop, if_pos hf] at h
      omega
    · simp only [chunkLoop, if_neg hf] at h ⊢
      obtain ⟨h1, h2⟩ := ih p (c ++ line ++ ['\n']) h
      constructor
      · rw [h1, flatJoin_cons]
        simp
      · intro _
        cases rest with
        | nil =>
          rw [h1]
          simp only [flatJoin_nil, List.append_nil, List.length_append]
          have : (['\n'] : Str).length = 1 := rfl
          push_neg at hf
          simpa [this] using hf
        | cons r rs => exact h2 (by simp)

/-- Structure of one run of the chunking loop: the consumed lines split into
the segments flushed as successive labelled parts (the first prefixed by the
initial buffer) followed by the lines left in the final buffer; moreover,
when the initial buffer and every `line + '\n'` fit in the threshold, every
flushed body and the final buffer fit in the threshold. -/
theorem chunkLoop_struct (lines : List Str) :
    ∀ (p : Nat) (c : Str),
      ∃ (segs : List (List Str)) (rest : List Str),
        lines = segs.flatten ++ rest ∧
        (chunkLoop p c lines).part = p + segs.length ∧
        (segs = [] → (chunkLoop p c lines).chunk = c ++ flatJoin rest) ∧
        (segs ≠ [] → (chunkLoop p c lines).chunk = flatJoin rest) ∧
        (chunkLoop p c lines).events = flushRun p c segs ∧
        ((∀ l ∈ lines, l.length + 1 ≤ MAX_RESPONSE_LENGTH) →
          c.length ≤ MAX_RESPONSE_LENGTH →
          (∀ b ∈ bodiesOf c segs, b.length ≤ MAX_RESPONSE_LENGTH) ∧
          (chunkLoop p c lines).chunk.length ≤ MAX_RESPONSE_LENGTH) := by
  induction lines with
  | nil =>
    intro p c
    refine ⟨[], [], by simp, by simp [chunkLoop], ?_, ?_, rfl, ?_⟩
    · intro _; simp [chunkLoop, flatJoin]
    · intro h; exact absurd rfl h
    · intro _ hc
      exact ⟨by simp [bodiesOf], by simpa [chunkLoop] using hc⟩
  | cons line rest0 ih =>
    intro p c
    by_cases hf : c.length + line.length + 1 > MAX_RESPONSE_LENGTH
    · obtain ⟨segs', rest', hsplit, hpart, hchunkN, hchunkC, hevents, hbound⟩ :=
        ih (p + 1) (line ++ ['\n'])
      have hstep :
          chunkLoop p c (line :: rest0) =
            ⟨flushEvents p c ++ (chunkLoop (p + 1) (line ++ ['\n']) rest0).events,
             (chunkLoop (p + 1) (line ++ ['\n']) rest0).chunk,
             (chunkLoop (p + 1) (line ++ ['\n']) rest0).part⟩ := by
        simp only [chunkLoop, if_pos hf]
      cases segs' with
      | nil =>
        have hrest : rest0 = rest' := by simpa using hsplit
        refine ⟨[[]], line :: rest', ?_, ?_, ?_, ?_, ?_, ?_⟩
        · simpa using hrest
        · rw [hstep]
          show (chunkLoop (p + 1) (line ++ ['\n']) rest0).part = p + 1
          rw [hpart]
          rfl
        · intro h; exact absurd h (by simp)
        · intro _
          rw [hstep]
          show (chunkLoop (p + 1) (line ++ ['\n']) rest0).chunk = flatJoin (line :: rest')
          rw [hchunkN rfl, flatJoin_cons]
        · rw [hstep]
          show flushEvents p c ++ (chunkLoop (p + 1) (line ++ ['\n']) rest0).events =
            flushRun p c [[]]
          rw [hevents]
          show flushEvents p c ++ flushRun (p + 2) [] [] =
            flushEvents p (c ++ flatJoin []) ++ flushRun (p + 1) [] []
          simp [flushRun, flatJoin_nil]
        · intro hl hc
          have hline : line.length + 1 ≤ MAX_RESPONSE_LENGTH := hl line (by simp)
          have hl' : ∀ l ∈ rest0, l.length + 1 ≤ MAX_RESPONSE_LENGTH :=
            fun l hm => hl l (List.mem_cons_of_mem line hm)
          have hc' : (line ++ ['\n']).length ≤ MAX_RESPONSE_LENGTH := by
            simp only [List.length_append]
            have : (['\n'] : Str).length = 1 := rfl
            omega
          obtain ⟨_, hchl⟩ := hbound hl' hc'
          constructor
          · intro b hb
            have : b = c := by
              simpa [bodiesOf, flatJoin_nil] using hb
            rw [this]; exact hc
          · rw [hstep]; exact hchl
      | cons t ts =>
        have hsplit' : rest0 = (t ++ ts.flatten) ++ rest' := by simpa using hsplit
        refine ⟨[] :: (line :: t) :: ts, rest', ?_, ?_, ?_, ?_, ?_, ?_⟩
        · simp only [List.flatten_cons, List.nil_append, List.cons_append,
            List.append_assoc]
          rw [hsplit']
          simp
        · rw [hstep]
          show (chunkLoop (p + 1) (line ++ ['\n']) rest0).part = p + ([] :: (line :: t) :: ts).length
          rw [hpart]
          simp only [List.length_cons]
          omega
        · intro h; exact absurd h (by simp)
        · intro _
          rw [hstep]
          show (chunkLoop (p + 1) (line ++ ['\n']) rest0).chunk = flatJoin rest'
          exact hchunkC (by simp)
        · rw [hstep]
          show flushEvents p c ++ (chunkLoop (p + 1) (line ++ ['\n']) rest0).events =
            flushRun p c ([] :: (line :: t) :: ts)
          rw [hevents]
          show flushEvents p c ++ (flushEvents (p + 1) ((line ++ ['\n']) ++ flatJoin t) ++
              flushRun (p + 2) [] ts) =
            flushEvents p (c ++ flatJoin []) ++
              (flushEvents (p + 1) ([] ++ flatJoin (line :: t)) ++ flushRun (p + 2) [] ts)
          rw [flatJoin_cons]
          simp [flatJoin_nil]
        · intro hl hc
          have hline : line.length + 1 ≤ MAX_RESPONSE_LENGTH := hl line (by simp)
          have hl' : ∀ l ∈ rest0, l.length + 1 ≤ MAX_RESPONSE_LENGTH :=
            fun l hm => hl l (List.mem_cons_of_mem line hm)
          have hc' : (line ++ ['\n']).length ≤ MAX_RESPONSE_LENGTH := by
            simp only [List.length_append]
            have : (['\n'] : Str).length = 1 := rfl
            omega
          obtain ⟨hbs, hchl⟩ := hbound hl' hc'
          constructor
          · intro b hb
            rcases List.mem_cons.mp hb with hb1 | hb2
            · have : b = c := by simpa [flatJoin_nil] using hb1
              rw [this]; exact hc
            · apply hbs
              show b ∈ ((line ++ ['\n']) ++ flatJoin t) :: ts.map flatJoin
              have hfj : flatJoin (line :: t) = (line ++ ['\n']) ++ flatJoin t :=
                flatJoin_cons line t
              simpa [bodiesOf, hfj] using hb2
          · rw [hstep]; exact hchl
    · obtain ⟨segs', rest', hsplit, hpart, hchunkN, hchunkC, hevents, hbound⟩ :=
        ih p (c ++ line ++ ['\n'])
      have hstep : chunkLoop p c (line :: rest0) = chunkLoop p (c ++ line ++ ['\n']) rest0 := by
        simp only [chunkLoop, if_neg hf]
      have hcb : (c ++ line ++ ['\n']).length ≤ MAX_RESPONSE_LENGTH := by
        simp only [List.length_append]
        have : (['\n'] : Str).length = 1 := rfl
        push_neg at hf
        omega
      cases segs' with
      | nil =>
        have hrest : rest0 = rest' := by simpa using hsplit
        refine ⟨[], line :: rest', ?_, ?_, ?_, ?_, ?_, ?_⟩
        · simpa using hrest
        · rw [hstep, hpart]
        · intro _
          rw [hstep, hchunkN rfl, flatJoin_cons]
          simp
        · intro h; exact absurd rfl h
        · rw [hstep, hevents]; rfl
        · intro hl hc
          have hl' : ∀ l ∈ rest0, l.length + 1 ≤ MAX_RESPONSE_LENGTH :=
            fun l hm => hl l (List.mem_cons_of_mem line hm)
          obtain ⟨_, hchl⟩ := hbound hl' hcb
          exact ⟨by simp [bodiesOf], by rw [hstep]; exact hchl⟩
      | cons t ts =>
        have hsplit' : rest0 = (t ++ ts.flatten) ++ rest' := by simpa using hsplit
        refine ⟨(line :: t) :: ts, rest', ?_, ?_, ?_, ?_, ?_, ?_⟩
        · simp only [List.flatten_cons, List.cons_append, List.append_assoc]
          rw [hsplit']
          simp
        · rw [hstep, hpart]
          simp only [List.length_cons]
        · intro h; exact absurd h (by simp)
        · intro _
          rw [hstep]
          exact hchunkC (by simp)
        · rw [hstep, hevents]
          show flushEvents p ((c ++ line ++ ['\n']) ++ flatJoin t) ++ flushRun (p + 1) [] ts =
            flushEvents p (c ++ flatJoin (line :: t)) ++ flushRun (p + 1) [] ts
          rw [flatJoin_cons]
          simp
        · intro hl hc
          have hl' : ∀ l ∈ rest0, l.length + 1 ≤ MAX_RESPONSE_LENGTH :=
            fun l hm => hl l (List.mem_cons_of_mem line hm)
          obtain ⟨hbs, hchl⟩ := hbound hl' hcb
          constructor
          · intro b hb
            simp only [bodiesOf] at hb
            rcases List.mem_cons.mp hb with hb1 | hb2
            · have hbeq : b = (c ++ line ++ ['\n']) ++ flatJoin t := by
                rw [hb1, flatJoin_cons]
                simp [List.append_assoc]
              apply hbs
              simp only [bodiesOf]
              rw [hbeq]
              exact List.mem_cons_self _ _
            · apply hbs
              simp only [bodiesOf]
              exact List.mem_cons_of_mem _ hb2
          · rw [hstep]; exact hchl

theorem dropWhile_all {α : Type} (p : α → Bool) :
    ∀ (l : List α), (∀ x ∈ l.dropWhile p, p x = true) → ∀ x ∈ l, p x = true := by
  intro l
  induction l with
  | nil => intro _ x hx; cases hx
  | cons a as ih =>
    intro h x hx
    by_cases hp : p a = true
    · have hd : (a :: as).dropWhile p = as.dropWhile p := by
        simp [List.dropWhile_cons, hp]
      rw [hd] at h
      rcases List.mem_cons.mp hx with rfl | hx'
      · exact hp
      · exact ih h x hx'
    · have hd : (a :: as).dropWhile p = a :: as := by
        simp [List.dropWhile_cons, hp]
      rw [hd] at h
      exact h x hx

/-- A string whose trim is empty consists entirely of whitespace. -/
theorem jsTrim_eq_nil_all (s : Str) (h : jsTrim s = []) :
    ∀ x ∈ s, x.isWhitespace = true := by
  unfold jsTrim at h
  rw [List.reverse_eq_nil_iff] at h
  have h2 := List.dropWhile_eq_nil_iff.mp h
  have h3 : ∀ x ∈ s.dropWhile Char.isWhitespace, x.isWhitespace = true := by
    intro x hx
    exact h2 x (List.mem_reverse.mpr hx)
  exact dropWhile_all _ s h3

theorem sum_le_length_mul (L : List Nat) (k : Nat) (h : ∀ x ∈ L, x ≤ k) :
    L.sum ≤ L.length * k := by
  induction L with
  | nil => simp
  | cons a as ih =>
    simp only [List.sum_cons, List.length_cons]
    have ha := h a (by simp)
    have has := ih (fun x hx => h x (List.mem_cons_of_mem a hx))
    calc a + as.sum ≤ k + as.length * k := by omega
    _ = (as.length + 1) * k := by ring

/-- Decomposition of a long-message send: the split lines fall into the
segments whose joins are the labelled part bodies (labels consecutive from
1, including the first part), followed by a whitespace-only remainder that
is dropped; when every `line + '\n'` fits the threshold, every body fits
the threshold. -/
theorem sendLong_main (text : Str) (h : MAX_RESPONSE_LENGTH < text.length) :
    ∃ (segsAll : List (List Str)) (dropped : List Str),
      segsAll ≠ [] ∧
      jsSplit '\n' text = segsAll.flatten ++ dropped ∧
      jsTrim (flatJoin dropped) = [] ∧
      chunkReplies (sendLongMessage text) = labelAll 1 (segsAll.map flatJoin) ∧
      ((∀ l ∈ jsSplit '\n' text, l.length + 1 ≤ MAX_RESPONSE_LENGTH) →
        ∀ b ∈ segsAll.map flatJoin, b.length ≤ MAX_RESPONSE_LENGTH) := by
  obtain ⟨segs, rest, hsplit, hpart, hchunkN, hchunkC, hevents, hbound⟩ :=
    chunkLoop_struct (jsSplit '\n' text) 1 []
  have hlen_fj : (flatJoin (jsSplit '\n' text)).length = text.length + 1 := by
    rw [flatJoin_jsSplit]
    simp
  have hne : segs ≠ [] := by
    intro he
    have hch := hchunkN he
    have hrest : jsSplit '\n' text = rest := by simpa [he] using hsplit
    have hp1 : (chunkLoop 1 [] (jsSplit '\n' text)).part = 1 := by
      rw [hpart, he]
      rfl
    have hnf := chunkLoop_noflush (jsSplit '\n' text) 1 [] hp1
    have hle := hnf.2 (jsSplit_ne_nil '\n' text)
    rw [hnf.1] at hle
    simp only [List.nil_append] at hle
    rw [hlen_fj] at hle
    omega
  have hchunk : (chunkLoop 1 [] (jsSplit '\n' text)).chunk = flatJoin rest := hchunkC hne
  have hpgt : 1 < (chunkLoop 1 [] (jsSplit '\n' text)).part := by
    rw [hpart]
    cases segs with
    | nil => exact absurd rfl hne
    | cons a as => simp
  have hsend : sendLongMessage text =
      (chunkLoop 1 [] (jsSplit '\n' text)).events ++
        (if jsTrim (chunkLoop 1 [] (jsSplit '\n' text)).chunk ≠ [] then
          [Event.reply
            (if (chunkLoop 1 [] (jsSplit '\n' text)).part > 1 then
              partLabel (chunkLoop 1 [] (jsSplit '\n' text)).part ++
                (chunkLoop 1 [] (jsSplit '\n' text)).chunk
            else (chunkLoop 1 [] (jsSplit '\n' text)).chunk)]
        else []) := by
    simp only [sendLongMessage, if_neg (not_le.mpr h)]
  by_cases ht : jsTrim (flatJoin rest) = []
  · refine ⟨segs, rest, hne, hsplit, ht, ?_, ?_⟩
    · rw [hsend, hchunk]
      rw [if_neg (by simpa using ht)]
      rw [List.append_nil, hevents, flushRun_replies, bodiesOf_nil_left]
    · intro hl
      have hb := (hbound hl (by simp)).1
      rw [bodiesOf_nil_left] at hb
      exact hb
  · refine ⟨segs ++ [rest], [], by simp, ?_, rfl, ?_, ?_⟩
    · rw [hsplit]
      simp [List.flatten_append]
    · rw [hsend, hchunk]
      rw [if_pos (by simpa using ht), chunkReplies_append, hevents, flushRun_replies,
        bodiesOf_nil_left]
      have hrep1 : chunkReplies
          [Event.reply (if (chunkLoop 1 [] (jsSplit '\n' text)).part > 1 then
            partLabel (chunkLoop 1 [] (jsSplit '\n' text)).part ++ flatJoin rest
          else flatJoin rest)] =
          [partLabel (1 + segs.length) ++ flatJoin rest] := by
        rw [if_pos hpgt, hpart]
        rfl
      rw [hrep1, List.map_append]
      have hms : List.map flatJoin [rest] = [flatJoin rest] := rfl
      rw [hms, labelAll_append_single]
      simp
    · intro hl
      have hb := (hbound hl (by simp)).1
      rw [bodiesOf_nil_left] at hb
      intro b hbm
      rw [List.map_append] at hbm
      rcases List.mem_append.mp hbm with hb1 | hb2
      · exact hb b hb1
      · have : b = flatJoin rest := by simpa using hb2
        rw [this, ← hchunk]
        exact (hbound hl (by simp)).2

/-- The 9000-character chunking scenario, for any nonempty list of
newline-free lines of length at most 100 each containing a non-whitespace
character: the chunker emits at least 3 parts, labelled consecutively from
1, each body within the threshold, and the concatenated bodies are the
original text followed by one extra newline. -/
theorem chunk_scenario (ls : List Str) (h0 : ls ≠ [])
    (h1 : ∀ l ∈ ls, l.length ≤ 100 ∧ '\n' ∉ l ∧ ∃ ch ∈ l, ch.isWhitespace = false)
    (h2 : (joinLines ls).length = 9000) :
    ∃ bodies : List Str,
      chunkReplies (sendLongMessage (joinLines ls)) = labelAll 1 bodies ∧
      3 ≤ bodies.length ∧
      (∀ b ∈ bodies, b.length ≤ MAX_RESPONSE_LENGTH) ∧
      bodies.flatten = joinLines ls ++ ['\n'] := by
  have hgt : MAX_RESPONSE_LENGTH < (joinLines ls).length := by
    rw [h2]
    norm_num [MAX_RESPONSE_LENGTH]
  have hlines : jsSplit '\n' (joinLines ls) = ls :=
    jsSplit_joinLines ls h0 (fun l hl => (h1 l hl).2.1)
  obtain ⟨segsAll, dropped, hne, hsplit, htrim, hreplies, hbound⟩ :=
    sendLong_main (joinLines ls) hgt
  have hlb : ∀ l ∈ jsSplit '\n' (joinLines ls), l.length + 1 ≤ MAX_RESPONSE_LENGTH := by
    intro l hl
    rw [hlines] at hl
    have := (h1 l hl).1
    simp only [MAX_RESPONSE_LENGTH]
    omega
  have hbound' := hbound hlb
  have hdrop : dropped = [] := by
    cases dropped with
    | nil => rfl
    | cons d ds =>
      exfalso
      have hd_mem : d ∈ ls := by
        rw [← hlines, hsplit]
        exact List.mem_append.mpr (Or.inr (List.mem_cons_self d ds))
      obtain ⟨ch, hch, hws⟩ := (h1 d hd_mem).2.2
      have hch_fj : ch ∈ flatJoin (d :: ds) := by
        rw [flatJoin_cons]
        exact List.mem_append.mpr (Or.inl (List.mem_append.mpr (Or.inl hch)))
      have := jsTrim_eq_nil_all _ htrim ch hch_fj
      rw [hws] at this
      cases this
  rw [hdrop, List.append_nil] at hsplit
  have hflatten : (segsAll.map flatJoin).flatten = joinLines ls ++ ['\n'] := by
    rw [flatten_map_flatJoin, ← hsplit, hlines, flatJoin_joinLines ls h0]
  refine ⟨segsAll.map flatJoin, hreplies, ?_, hbound', hflatten⟩
  have hsum : ((segsAll.map flatJoin).map List.length).sum = 9001 := by
    have hc := congrArg List.length hflatten
    rw [List.length_flatten] at hc
    simp only [List.length_append, h2] at hc
    simpa using hc
  have hcount := sum_le_length_mul ((segsAll.map flatJoin).map List.length)
    MAX_RESPONSE_LENGTH (by
      intro x hx
      obtain ⟨b, hb, rfl⟩ := List.mem_map.mp hx
      exact hbound' b hb)
  rw [hsum] at hcount
  simp only [List.length_map] at hcount ⊢
  simp only [MAX_RESPONSE_LENGTH] at hcount
  omega

/-- Claim C7: Chunker general contract — every text within the threshold is
sent as exactly one verbatim reply (no part label); for every longer text
splitting occurs and every emitted part, including the first, carries the
part label with labels consecutive from 1; and every part body is the
concatenation of whole input lines (each with its terminating newline), the
lines of the input splitting into the per-part segments followed by a
whitespace-only dropped remainder — so no part body begins or ends inside a
line. -/
theorem c7_chunker_contract (text : Str) :
    (text.length ≤ MAX_RESPONSE_LENGTH → sendLongMessage text = [Event.reply text]) ∧
    (MAX_RESPONSE_LENGTH < text.length →
      ∃ (segsAll : List (List Str)) (dropped : List Str),
        segsAll ≠ [] ∧
        jsSplit '\n' text = segsAll.flatten ++ dropped ∧
        jsTrim (flatJoin dropped) = [] ∧
        chunkReplies (sendLongMessage text) = labelAll 1 (segsAll.map flatJoin)) := by
  constructor
  · intro h
    simp [sendLongMessage, h]
  · intro h
    obtain ⟨segsAll, dropped, h1, h2, h3, h4, _⟩ := sendLong_main text h
    exact ⟨segsAll, dropped, h1, h2, h3, h4⟩

theorem c7_chunker_contract_witness :
    sendLongMessage "hi".data = [Event.reply "hi".data] ∧
    (MAX_RESPONSE_LENGTH < (List.replicate 4001 'a' : Str).length ∧
      ∃ (segsAll : List (List Str)) (dropped : List Str),
        segsAll ≠ [] ∧
        jsSplit '\n' (List.replicate 4001 'a') = segsAll.flatten ++ dropped ∧
        jsTrim (flatJoin dropped) = [] ∧
        chunkReplies (sendLongMessage (List.replicate 4001 'a')) =
          labelAll 1 (segsAll.map flatJoin)) := by
  have hlen : (List.replicate 4001 'a' : Str).length = 4001 := List.length_replicate _ _
  have hgt : MAX_RESPONSE_LENGTH < (List.replicate 4001 'a' : Str).length := by
    rw [hlen]
    norm_num [MAX_RESPONSE_LENGTH]
  exact ⟨(c7_chunker_contract "hi".data).1 (by norm_num [MAX_RESPONSE_LENGTH]),
    hgt, (c7_chunker_contract (List.replicate 4001 'a')).2 hgt⟩

theorem lines9000_facts :
    lines9000 ≠ [] ∧
    (∀ l ∈ lines9000, l.length ≤ 100 ∧ '\n' ∉ l ∧ ∃ ch ∈ l, ch.isWhitespace = false) ∧
    text9000.length = 9000 := by
  have hmem : ∀ l ∈ lines9000, l = List.replicate 100 'a' ∨ l = List.replicate 11 'a' := by
    intro l hl
    rcases List.mem_append.mp hl with h | h
    · exact Or.inl (List.eq_of_mem_replicate h)
    · simp only [List.mem_singleton] at h
      exact Or.inr h
  refine ⟨by simp [lines9000], ?_, ?_⟩
  · intro l hl
    have hrep : ∀ (n : Nat), 0 < n →
        (List.replicate n 'a' : Str).length ≤ max n 100 ∧
        '\n' ∉ (List.replicate n 'a' : Str) ∧
        ∃ ch ∈ (List.replicate n 'a' : Str), ch.isWhitespace = false := by
      intro n hn
      refine ⟨by simp [List.length_replicate], ?_, ⟨'a', ?_, rfl⟩⟩
      · intro hm
        have := List.eq_of_mem_replicate hm
        exact absurd this (by decide)
      · exact List.mem_replicate.mpr ⟨by omega, rfl⟩
    rcases hmem l hl with rfl | rfl
    · obtain ⟨ha, hb, hc⟩ := hrep 100 (by norm_num)
      exact ⟨by simp, hb, hc⟩
    · obtain ⟨ha, hb, hc⟩ := hrep 11 (by norm_num)
      exact ⟨by simp [List.length_replicate], hb, hc⟩
  · have hmaplen : lines9000.map List.length = List.replicate 89 100 ++ [11] := by
      simp [lines9000, List.map_append, List.map_replicate, List.length_replicate]
    have hsum : (lines9000.map List.length).sum = 8911 := by
      rw [hmaplen, List.sum_append]
      simp [List.sum_replicate, smul_eq_mul]
    have hlen90 : lines9000.length = 90 := by simp [lines9000]
    have hj := joinLines_length_add_one lines9000 (by simp [lines9000])
    rw [hsum, hlen90] at hj
    show (joinLines lines9000).length = 9000
    omega

/-- Counterexample to claim C6: for the 9000-character text of 89 lines of
100 characters and one line of 11 characters, all parts are labelled from 1
and bounded, but concatenating the label-stripped bodies cannot reconstruct
the text exactly — the chunker appends a newline after every line, so the
concatenation is the text plus one trailing newline (9001 characters). -/
theorem c6_chunk_counterexample :
    text9000.length = 9000 ∧
    (∀ l ∈ jsSplit '\n' text9000, l.length ≤ 100) ∧
    ¬∃ bodies : List Str,
        chunkReplies (sendLongMessage text9000) = labelAll 1 bodies ∧
        bodies.flatten = text9000 := by
  obtain ⟨h0, h1, h2⟩ := lines9000_facts
  have hlines : jsSplit '\n' text9000 = lines9000 :=
    jsSplit_joinLines lines9000 h0 (fun l hl => (h1 l hl).2.1)
  obtain ⟨bodies, hrep, _, _, hflat⟩ := chunk_scenario lines9000 h0 h1 h2
  refine ⟨h2, ?_, ?_⟩
  · intro l hl
    rw [hlines] at hl
    exact (h1 l hl).1
  · rintro ⟨bodies', hrep', hflat'⟩
    have hbb : bodies = bodies' := labelAll_inj bodies 1 bodies' (hrep.symm.trans hrep')
    rw [← hbb, show text9000 = joinLines lines9000 from rfl] at hflat'
    have hlen := congrArg List.length (hflat.symm.trans hflat')
    simp only [List.length_append, List.length_singleton] at hlen
    omega

/-- Claim C6 (amended): for every 9000-character text composed of
newline-free lines of length at most 100 (each containing a non-whitespace
character), the chunker produces at least 3 parts, each body at most 4000
characters, labelled `Part k` with `k` consecutive from 1, and concatenating
the label-stripped bodies reconstructs the original text followed by one
extra trailing newline (every line, the last included, is emitted with a
terminating newline). -/
theorem c6_chunk_scenario_amended (ls : List Str) (h0 : ls ≠ [])
    (h1 : ∀ l ∈ ls, l.length ≤ 100 ∧ '\n' ∉ l ∧ ∃ ch ∈ l, ch.isWhitespace = false)
    (h2 : (joinLines ls).length = 9000) :
    ∃ bodies : List Str,
      chunkReplies (sendLongMessage (joinLines ls)) = labelAll 1 bodies ∧
      3 ≤ bodies.length ∧
      (∀ b ∈ bodies, b.length ≤ MAX_RESPONSE_LENGTH) ∧
      bodies.flatten = joinLines ls ++ ['\n'] :=
  chunk_scenario ls h0 h1 h2

theorem c6_chunk_scenario_amended_witness :
    (joinLines lines9000).length = 9000 ∧
    ∃ bodies : List Str,
      chunkReplies (sendLongMessage (joinLines lines9000)) = labelAll 1 bodies ∧
      3 ≤ bodies.length ∧
      (∀ b ∈ bodies, b.length ≤ MAX_RESPONSE_LENGTH) ∧
      bodies.flatten = joinLines lines9000 ++ ['\n'] :=
  ⟨lines9000_facts.2.2,
    c6_chunk_scenario_amended lines9000 lines9000_facts.1 lines9000_facts.2.1
      lines9000_facts.2.2⟩

/-- Claim C10: Oversized-line edge case — for the input consisting of one
4001-character line followed by a one-character line (4003 characters,
above the threshold; its first split line longer than the threshold), the
chunker emits a labelled part with an empty body (the buffer is flushed
before any line was accumulated), then a part whose body is the whole
oversized line with its newline — 4002 characters, exceeding the threshold;
the oversized line is never divided. -/
theorem c10_oversized_line :
    MAX_RESPONSE_LENGTH < textOversized.length ∧
    (∃ l ∈ jsSplit '\n' textOversized, MAX_RESPONSE_LENGTH < l.length) ∧
    chunkReplies (sendLongMessage textOversized) =
      [partLabel 1 ++ [],
       partLabel 2 ++ (List.replicate 4001 'a' ++ ['\n']),
       partLabel 3 ++ ['b', '\n']] ∧
    MAX_RESPONSE_LENGTH < (List.replicate 4001 'a' ++ ['\n'] : Str).length := by
  have hA : (List.replicate 4001 'a' : Str).length = 4001 := List.length_replicate _ _
  have hlen : textOversized.length = 4003 := by
    unfold textOversized
    rw [List.length_append, hA]
    decide
  have hsplit : jsSplit '\n' textOversized = [List.replicate 4001 'a', ['b']] := by
    have ht : textOversized = joinLines [List.replicate 4001 'a', ['b']] := rfl
    rw [ht]
    apply jsSplit_joinLines _ (List.cons_ne_nil _ _)
    intro l hl
    rcases List.mem_cons.mp hl with rfl | hl'
    · intro hm
      exact absurd (List.eq_of_mem_replicate hm) (by decide)
    · have : l = ['b'] := by simpa using hl'
      rw [this]
      decide
  have hc1 : ([] : Str).length + (List.replicate 4001 'a' : Str).length + 1 >
      MAX_RESPONSE_LENGTH := by
    rw [hA]
    decide
  have hc2 : (List.replicate 4001 'a' ++ ['\n'] : Str).length + (['b'] : Str).length + 1 >
      MAX_RESPONSE_LENGTH := by
    rw [List.length_append, hA]
    decide
  have hlA : MAX_RESPONSE_LENGTH < (List.replicate 4001 'a' ++ ['\n'] : Str).length := by
    rw [List.length_append, hA]
    decide
  have hloop : chunkLoop 1 [] [List.replicate 4001 'a', ['b']] =
      ⟨flushEvents 1 [] ++ flushEvents 2 (List.replicate 4001 'a' ++ ['\n']),
       ['b', '\n'], 3⟩ := by
    show chunkLoop 1 [] (List.replicate 4001 'a' :: [['b']]) = _
    rw [show chunkLoop 1 [] (List.replicate 4001 'a' :: [['b']]) =
        if ([] : Str).length + (List.replicate 4001 'a' : Str).length + 1 >
            MAX_RESPONSE_LENGTH then
          ⟨flushEvents 1 [] ++
            (chunkLoop 2 (List.replicate 4001 'a' ++ ['\n']) [['b']]).events,
           (chunkLoop 2 (List.replicate 4001 'a' ++ ['\n']) [['b']]).chunk,
           (chunkLoop 2 (List.replicate 4001 'a' ++ ['\n']) [['b']]).part⟩
        else chunkLoop 1 ([] ++ List.replicate 4001 'a' ++ ['\n']) [['b']]
      from rfl]
    rw [if_pos hc1]
    rw [show chunkLoop 2 (List.replicate 4001 'a' ++ ['\n']) [['b']] =
        if (List.replicate 4001 'a' ++ ['\n'] : Str).length + (['b'] : Str).length + 1 >
            MAX_RESPONSE_LENGTH then
          ⟨flushEvents 2 (List.replicate 4001 'a' ++ ['\n']) ++
            (chunkLoop 3 (['b'] ++ ['\n']) []).events,
           (chunkLoop 3 (['b'] ++ ['\n']) []).chunk,
           (chunkLoop 3 (['b'] ++ ['\n']) []).part⟩
        else chunkLoop 2 ((List.replicate 4001 'a' ++ ['\n']) ++ ['b'] ++ ['\n']) []
      from rfl]
    rw [if_pos hc2]
    rfl
  have hgt : ¬(textOversized.length ≤ MAX_RESPONSE_LENGTH) := by
    rw [hlen]
    decide
  have hsend : sendLongMessage textOversized =
      (flushEvents 1 [] ++ flushEvents 2 (List.replicate 4001 'a' ++ ['\n'])) ++
        [Event.reply (partLabel 3 ++ ['b', '\n'])] := by
    simp only [sendLongMessage, if_neg hgt, hsplit, hloop]
    rw [if_pos (show jsTrim ['b', '\n'] ≠ [] by decide)]
    rw [if_pos (show (3 : Nat) > 1 by decide)]
  refine ⟨by rw [hlen]; decide, ?_, ?_, hlA⟩
  · refine ⟨List.replicate 4001 'a', ?_, by rw [hA]; decide⟩
    rw [hsplit]
    exact List.mem_cons_self _ _
  · rw [hsend, chunkReplies_append, chunkReplies_append, chunkReplies_flushEvents,
      chunkReplies_flushEvents]
    rfl
